import Mathlib

/-!
Shallow embedding of the engine session protocol layer of `chess-prep`
(`src/engine.rs`) and proofs about it.

The Rust module drives an external UCI engine over line-oriented pipes.  We
model the output stream as a `List String` of already-read lines (a zero-byte
read, i.e. end of stream, corresponds to the list being exhausted), machine
integers as `Nat`/`Int` with explicit range checks where the Rust parser
checks them, and the external `shakmaty` rules collaborator as an abstract
`Rules` structure of the operations `pv_uci_to_san` calls.

Rust `str` helpers (`trim`, `starts_with`, `split_whitespace`,
`parse::<u32>`, `parse::<i32>`) are embedded as executable functions over the
character list of the string (ASCII whitespace; the claims only involve ASCII
data).
-/

namespace ChessPrep

/-- Embedding of Rust `str::trim`: drop whitespace from both ends. -/
def rustTrim (s : String) : String :=
  (((s.toList.dropWhile Char.isWhitespace).reverse.dropWhile Char.isWhitespace).reverse).asString

/-- Embedding of Rust `str::starts_with`. -/
def rustStartsWith (s pre : String) : Bool :=
  pre.toList.isPrefixOf s.toList

/-- Helper for `split_whitespace`: scan the characters, accumulating the
current (reversed) token. -/
def splitWsAux : List Char → List Char → List String
  | [], [] => []
  | [], acc => [acc.reverse.asString]
  | c :: rest, acc =>
    if c.isWhitespace then
      if acc.isEmpty then splitWsAux rest []
      else acc.reverse.asString :: splitWsAux rest []
    else splitWsAux rest (c :: acc)

/-- Embedding of Rust `str::split_whitespace`: whitespace-separated tokens,
empty tokens dropped. -/
def split_whitespace (s : String) : List String :=
  splitWsAux s.toList []

/-- Accumulate a decimal digit string; `none` if a non-digit appears. -/
def parseDigitsAux : List Char → Nat → Option Nat
  | [], acc => some acc
  | c :: rest, acc =>
    if c.isDigit then parseDigitsAux rest (acc * 10 + (c.toNat - 48)) else none

/-- Embedding of Rust `str::parse::<u32>`: optional leading plus sign, one or
more decimal digits, value below 2^32. -/
def parse_u32 (s : String) : Option Nat :=
  let cs := match s.toList with
    | '+' :: rest => rest
    | cs => cs
  match cs with
  | [] => none
  | _ =>
    match parseDigitsAux cs 0 with
    | some n => if n < 2 ^ 32 then some n else none
    | none => none

/-- Embedding of Rust `str::parse::<i32>`: optional sign, one or more decimal
digits, value within the i32 range. -/
def parse_i32 (s : String) : Option Int :=
  match s.toList with
  | '-' :: rest =>
    match rest with
    | [] => none
    | _ =>
      match parseDigitsAux rest 0 with
      | some n => if n ≤ 2 ^ 31 then some (-(n : Int)) else none
      | none => none
  | '+' :: rest =>
    match rest with
    | [] => none
    | _ =>
      match parseDigitsAux rest 0 with
      | some n => if n < 2 ^ 31 then some (n : Int) else none
      | none => none
  | cs =>
    match cs with
    | [] => none
    | _ =>
      match parseDigitsAux cs 0 with
      | some n => if n < 2 ^ 31 then some (n : Int) else none
      | none => none

/-- Embedding of `ParsedInfoLine` from `src/engine.rs`. -/
structure ParsedInfoLine where
  depth : Option Nat
  score_cp : Option Int
  score_mate : Option Int
  pv : List String
  multipv : Nat
deriving DecidableEq, Repr

/-- Embedding of `EngineError` from `src/types.rs` (the `Io` payload is
reduced to a message string; our stream model never raises it). -/
inductive EngineError where
  | Io : String → EngineError
  | Spawn : String → EngineError
  | Protocol : String → EngineError
deriving DecidableEq, Repr

/-- Embedding of `EngineLine` from `src/types.rs`. -/
structure EngineLine where
  multipv_rank : Nat
  depth : Nat
  score_cp : Option Int
  score_mate : Option Int
  pv : List String
  san_pv : List String
deriving DecidableEq, Repr

/-- Embedding of `EngineAnalysis` from `src/types.rs`. -/
structure EngineAnalysis where
  depth : Nat
  score_cp : Option Int
  score_mate : Option Int
  bestmove : Option String
  pv : List String
  lines : List EngineLine
deriving DecidableEq, Repr

/-- The keyword scan of `parse_info_line` (the `while index < tokens.len()`
loop of `src/engine.rs`), as a recursion over the token list.  Each case
mirrors one `match` arm: `depth`/`multipv` consume one value token,
`score` consumes a kind and a value token, `pv` takes the rest of the line
and stops, anything else is skipped one token at a time.  Short patterns
(the keyword is at the very end of the line) fall off the loop without
updating, exactly as the Rust index arithmetic does. -/
def parse_info_loop : List String → ParsedInfoLine → ParsedInfoLine
  | [], st => st
  | "depth" :: next :: rest, st =>
    (match parse_u32 next with
      | some value => parse_info_loop rest { st with depth := some value }
      | none => parse_info_loop rest st)
  | ["depth"], st => st
  | "multipv" :: next :: rest, st =>
    (match parse_u32 next with
      | some value => parse_info_loop rest { st with multipv := value }
      | none => parse_info_loop rest st)
  | ["multipv"], st => st
  | "score" :: kind :: value :: rest, st =>
    if kind = "cp" then parse_info_loop rest { st with score_cp := parse_i32 value }
    else if kind = "mate" then parse_info_loop rest { st with score_mate := parse_i32 value }
    else parse_info_loop rest st
  | ["score", _], st => st
  | ["score"], st => st
  | "pv" :: rest, st =>
    if rest.isEmpty then st else { st with pv := rest }
  | _ :: rest, st => parse_info_loop rest st

/-- Embedding of `parse_info_line` from `src/engine.rs`. -/
def parse_info_line (line : String) : Option ParsedInfoLine :=
  if rustStartsWith line "info " then
    let tokens := split_whitespace line
    let st := parse_info_loop tokens ⟨none, none, none, [], 1⟩
    if st.depth.isNone && st.score_cp.isNone && st.score_mate.isNone && st.pv.isEmpty then
      none
    else
      some st
  else none

/-- Embedding of `better_info` from `src/engine.rs`. -/
def better_info (candidate current : ParsedInfoLine) : Bool :=
  let candidate_depth := candidate.depth.getD 0
  let current_depth := current.depth.getD 0
  decide (current_depth < candidate_depth)
    || (decide (candidate_depth = current_depth)
        && !candidate.pv.isEmpty && current.pv.isEmpty)

/-- Embedding of `normalized_depth` from `src/engine.rs`. -/
def normalized_depth (depth : Nat) : Nat :=
  if depth = 0 then 18 else depth

/-- Embedding of `normalized_multipv` from `src/engine.rs` (`clamp(1, 10)`). -/
def normalized_multipv (multipv : Nat) : Nat :=
  if multipv < 1 then 1 else if multipv > 10 then 10 else multipv

instance {ε α : Type} [DecidableEq ε] [DecidableEq α] : DecidableEq (Except ε α) := fun x y =>
  match x, y with
  | .error a, .error b => if h : a = b then .isTrue (by rw [h]) else .isFalse (by simp [h])
  | .ok a, .ok b => if h : a = b then .isTrue (by rw [h]) else .isFalse (by simp [h])
  | .error _, .ok _ => .isFalse (by simp)
  | .ok _, .error _ => .isFalse (by simp)

/-- Abstract interface to the external `shakmaty` rules collaborator, holding
exactly the operations `pv_uci_to_san` calls: FEN parsing
(`Fen::from_str`), position construction (`Fen::into_position`), move-token
parsing (`UciMove::from_ascii`), legality resolution (`UciMove::to_move`),
display rendering (`San::from_move` + `to_string`) and position update
(`Position::play_unchecked`). -/
structure Rules (F P U M : Type) where
  fen_from_str : String → Option F
  into_position : F → Option P
  uci_from_ascii : String → Option U
  to_move : U → P → Option M
  san_from_move : P → M → String
  play_unchecked : P → M → P

/-- The replay loop of `pv_uci_to_san` (`for uci in pv` in `src/engine.rs`):
parse the token, resolve it to a legal move, render its display notation
against the position before the move, then advance the position; the first
parse or legality failure stops the loop. -/
def pv_uci_to_san_go {F P U M : Type} (R : Rules F P U M) : P → List String → List String
  | _, [] => []
  | position, uci :: rest =>
    match R.uci_from_ascii uci with
    | none => []
    | some parsed_uci =>
      match R.to_move parsed_uci position with
      | none => []
      | some mv =>
        R.san_from_move position mv :: pv_uci_to_san_go R (R.play_unchecked position mv) rest

/-- Embedding of `pv_uci_to_san` from `src/engine.rs`: both starting-position
failures (FEN parse, position construction) return the empty sequence. -/
def pv_uci_to_san {F P U M : Type} (R : Rules F P U M) (fen : String) (pv : List String) :
    List String :=
  match R.fen_from_str fen with
  | none => []
  | some parsed_fen =>
    match R.into_position parsed_fen with
    | none => []
    | some position => pv_uci_to_san_go R position pv

/-- Resolution of one protocol token against a position: parse then check
legality (the two collaborator calls the loop makes per token). -/
def resolve_token {F P U M : Type} (R : Rules F P U M) (position : P) (uci : String) :
    Option M :=
  (R.uci_from_ascii uci).bind (fun parsed => R.to_move parsed position)

/-- Modelled from the spec: the longest prefix of the token list whose moves
all parse and are legal when replayed in order from the given position. -/
def legal_run {F P U M : Type} (R : Rules F P U M) : P → List String → List String
  | _, [] => []
  | position, uci :: rest =>
    match resolve_token R position uci with
    | none => []
    | some mv => uci :: legal_run R (R.play_unchecked position mv) rest

/-- Modelled from the spec: the display notations of a token list replayed in
order from the given position (stopping at the first unresolvable token). -/
def display_seq {F P U M : Type} (R : Rules F P U M) : P → List String → List String
  | _, [] => []
  | position, uci :: rest =>
    match resolve_token R position uci with
    | none => []
    | some mv => R.san_from_move position mv :: display_seq R (R.play_unchecked position mv) rest

/-- Modelled from the spec: translation is the display notation of the longest
legal prefix, and an unparseable starting position yields the empty sequence. -/
def spec_translate {F P U M : Type} (R : Rules F P U M) (fen : String) (pv : List String) :
    List String :=
  match (R.fen_from_str fen).bind R.into_position with
  | none => []
  | some position => display_seq R position (legal_run R position pv)

/-- Fully-legal replay of a token list: the resulting position when every
token resolves, `none` otherwise. -/
def replay_all {F P U M : Type} (R : Rules F P U M) : P → List String → Option P
  | position, [] => some position
  | position, uci :: rest =>
    match resolve_token R position uci with
    | none => none
    | some mv => replay_all R (R.play_unchecked position mv) rest

/-- Embedding of `BTreeMap::insert` on a key-sorted association list (the
`best_by_rank` map of `collect_analysis_result`). -/
def bt_insert {α : Type} (k : Nat) (v : α) : List (Nat × α) → List (Nat × α)
  | [] => [(k, v)]
  | (k₁, v₁) :: rest =>
    if k < k₁ then (k, v) :: (k₁, v₁) :: rest
    else if k = k₁ then (k, v) :: rest
    else (k₁, v₁) :: bt_insert k v rest

/-- The per-info-line update of `collect_analysis_result` (`src/engine.rs`
lines 200–212): drop rank 0 and ranks beyond the requested width, then
replace the stored record when none exists or `better_info` prefers the
candidate. -/
def process_info (requested_multipv : Nat) (best_by_rank : List (Nat × ParsedInfoLine))
    (info : ParsedInfoLine) : List (Nat × ParsedInfoLine) :=
  if info.multipv = 0 ∨ info.multipv > requested_multipv then best_by_rank
  else
    let should_update :=
      match best_by_rank.lookup info.multipv with
      | some current => better_info info current
      | none => true
    if should_update then bt_insert info.multipv info best_by_rank else best_by_rank

/-- The bounded read loop of `collect_analysis_result` (`for _ in 0..50_000`):
`fuel` counts remaining iterations; an exhausted stream is the zero-byte
read and is a protocol error; a `bestmove` line breaks the loop, retaining
its second token unless it is the `(none)` sentinel; exhausting the fuel
falls through with the state accumulated so far. -/
def collect_loop (requested_multipv : Nat) :
    Nat → List String → List (Nat × ParsedInfoLine) → Option String →
      Except EngineError (List (Nat × ParsedInfoLine) × Option String)
  | 0, _, best_by_rank, bestmove => .ok (best_by_rank, bestmove)
  | _ + 1, [], _, _ =>
    .error (.Protocol "engine closed output before sending bestmove")
  | fuel + 1, line :: rest, best_by_rank, bestmove =>
    let trimmed := rustTrim line
    match parse_info_line trimmed with
    | some info =>
      collect_loop requested_multipv fuel rest
        (process_info requested_multipv best_by_rank info) bestmove
    | none =>
      if rustStartsWith trimmed "bestmove" then
        let tokens := split_whitespace trimmed
        let bestmove :=
          match tokens.get? 1 with
          | some token => if token ≠ "(none)" then some token else bestmove
          | none => bestmove
        .ok (best_by_rank, bestmove)
      else
        collect_loop requested_multipv fuel rest best_by_rank bestmove

/-- Construction of one `EngineLine` from a stored map entry (the closure in
`collect_analysis_result`): a missing depth defaults to the requested
depth, and the move sequence is translated to display notation. -/
def mk_engine_line {F P U M : Type} (R : Rules F P U M) (fen : String)
    (requested_depth : Nat) (entry : Nat × ParsedInfoLine) : EngineLine :=
  { multipv_rank := entry.1
    depth := entry.2.depth.getD requested_depth
    score_cp := entry.2.score_cp
    score_mate := entry.2.score_mate
    pv := entry.2.pv
    san_pv := pv_uci_to_san R fen entry.2.pv }

/-- Finalization of `collect_analysis_result` after the read loop: an empty
map is the no-data protocol error; otherwise build the lines, sort by
rank, pick the rank-1 line (or the first), and derive the best move as
translated-first, else terminal token, else protocol-native first. -/
def finalize_analysis {F P U M : Type} (R : Rules F P U M) (fen : String)
    (requested_depth : Nat) (best_by_rank : List (Nat × ParsedInfoLine))
    (bestmove : Option String) : Except EngineError EngineAnalysis :=
  if best_by_rank.isEmpty then
    .error (.Protocol "engine returned no analysis info for this position")
  else
    let lines :=
      (best_by_rank.map (mk_engine_line R fen requested_depth)).insertionSort
        (fun a b => a.multipv_rank ≤ b.multipv_rank)
    match (lines.find? (fun l => l.multipv_rank == 1)).orElse (fun _ => lines.head?) with
    | none => .error (.Protocol "engine returned no analysis info for this position")
    | some primary =>
      .ok
        { depth := primary.depth
          score_cp := primary.score_cp
          score_mate := primary.score_mate
          bestmove :=
            ((primary.san_pv.head?).orElse (fun _ => bestmove)).orElse
              (fun _ => primary.pv.head?)
          pv := primary.pv
          lines := lines }

/-- Embedding of `collect_analysis_result` from `src/engine.rs`: run the
bounded read loop from an empty map, then finalize. -/
def collect_analysis_result {F P U M : Type} (R : Rules F P U M) (stream : List String)
    (fen : String) (requested_depth requested_multipv : Nat) :
    Except EngineError EngineAnalysis :=
  match collect_loop requested_multipv 50000 stream [] none with
  | .error e => .error e
  | .ok (best_by_rank, bestmove) =>
    finalize_analysis R fen requested_depth best_by_rank bestmove

/-- Embedding of `wait_for_uci_token` from `src/engine.rs`, with the state of
the reader made explicit: on success the unread remainder of the stream is
returned.  Fuel exhaustion is the token-not-received error; an exhausted
stream inside the loop is the closed-while-waiting error. -/
def wait_for_uci_token : List String → String → Nat → Except EngineError (List String)
  | _, token, 0 =>
    .error (.Protocol ("did not receive '" ++ token ++ "' from engine"))
  | [], token, _ + 1 =>
    .error (.Protocol ("engine closed output while waiting for '" ++ token ++ "'"))
  | line :: rest, token, fuel + 1 =>
    if rustTrim line = token then .ok rest else wait_for_uci_token rest token fuel

/-- Embedding of `analyze_with_engine_io` from `src/engine.rs`: normalize the
request, perform the readiness exchange (the writes do not touch the
output stream), then collect the analysis from the remaining stream. -/
def analyze_with_engine_io {F P U M : Type} (R : Rules F P U M) (stream : List String)
    (fen : String) (depth multipv : Nat) : Except EngineError EngineAnalysis :=
  let depth := normalized_depth depth
  let multipv := normalized_multipv multipv
  match wait_for_uci_token stream "readyok" 20000 with
  | .error e => .error e
  | .ok rest => collect_analysis_result R rest fen depth multipv

/-- Degenerate rules instance whose FEN parser rejects everything: every
translation is empty.  Used to evaluate the aggregator on concrete data. -/
def trivRules : Rules Unit Unit Unit Unit :=
  { fen_from_str := fun _ => none
    into_position := fun _ => some ()
    uci_from_ascii := fun _ => some ()
    to_move := fun _ _ => some ()
    san_from_move := fun _ _ => ""
    play_unchecked := fun _ _ => () }

/-- Small concrete rules instance for exercising the translator: the only
parseable start position is "startpos"; the token "zz" fails to parse; the
token "illegal" parses but is never legal; every other token is legal and
renders as itself prefixed with "S". -/
def toyRules : Rules Unit Nat String String :=
  { fen_from_str := fun s => if s = "startpos" then some () else none
    into_position := fun _ => some 0
    uci_from_ascii := fun t => if t = "zz" then none else some t
    to_move := fun t _ => if t = "illegal" then none else some t
    san_from_move := fun _ m => "S" ++ m
    play_unchecked := fun p _ => p + 1 }

theorem lookup_bt_insert_self {α : Type} (k : Nat) (v : α) :
    ∀ m : List (Nat × α), (bt_insert k v m).lookup k = some v := by
  intro m
  induction m with
  | nil => simp [bt_insert, List.lookup]
  | cons head tail ih =>
    obtain ⟨k₁, v₁⟩ := head
    by_cases h1 : k < k₁
    · simp [bt_insert, h1, List.lookup]
    · by_cases h2 : k = k₁
      · simp [bt_insert, h1, h2, List.lookup]
      · have hb : (k == k₁) = false := by simpa using h2
        simp [bt_insert, h1, h2, List.lookup, hb, ih]

theorem lookup_bt_insert_ne {α : Type} (k r : Nat) (v : α) (hne : r ≠ k) :
    ∀ m : List (Nat × α), (bt_insert k v m).lookup r = m.lookup r := by
  have hb : (r == k) = false := by simpa using hne
  intro m
  induction m with
  | nil => simp [bt_insert, List.lookup, hb]
  | cons head tail ih =>
    obtain ⟨k₁, v₁⟩ := head
    by_cases h1 : k < k₁
    · simp [bt_insert, h1, List.lookup, hb]
    · by_cases h2 : k = k₁
      · subst h2
        simp [bt_insert, h1, List.lookup, hb]
      · simp [bt_insert, h1, h2, List.lookup, ih]

/-- C9: the info-line parser yields exactly the spec's example records on the
two example lines (cp/pv line and mate line). -/
theorem parse_info_line_examples :
    parse_info_line
        "info depth 16 seldepth 22 multipv 1 score cp 34 nodes 11111 nps 200000 pv e2e4 e7e5 g1f3" =
      some ⟨some 16, some 34, none, ["e2e4", "e7e5", "g1f3"], 1⟩
  ∧ parse_info_line "info depth 21 score mate -3 pv h7h8q" =
      some ⟨some 21, none, some (-3), ["h7h8q"], 1⟩ := by
  constructor <;> decide

/-- C8: the requested width is clamped into [1,10] (0 becomes 1, values above
10 become 10, in-range values unchanged), a requested depth of 0 becomes the
default 18 and any other depth is unchanged, the normalized depth is
substituted for a ranked line whose record lacks an explicit depth, and
`analyze_with_engine_io` feeds exactly the normalized values into the
collection phase. -/
theorem request_normalization :
    normalized_multipv 0 = 1
  ∧ (∀ w : Nat, 10 < w → normalized_multipv w = 10)
  ∧ (∀ w : Nat, 1 ≤ w → w ≤ 10 → normalized_multipv w = w)
  ∧ (∀ w : Nat, 1 ≤ normalized_multipv w ∧ normalized_multipv w ≤ 10)
  ∧ normalized_depth 0 = 18
  ∧ (∀ d : Nat, d ≠ 0 → normalized_depth d = d)
  ∧ (∀ (F P U M : Type) (R : Rules F P U M) (fen : String) (rd : Nat)
       (entry : Nat × ParsedInfoLine), entry.2.depth = none →
       (mk_engine_line R fen rd entry).depth = rd)
  ∧ (∀ (F P U M : Type) (R : Rules F P U M) (stream : List String) (fen : String)
       (d w : Nat),
       analyze_with_engine_io R stream fen d w =
         match wait_for_uci_token stream "readyok" 20000 with
         | .error e => .error e
         | .ok rest =>
           collect_analysis_result R rest fen (normalized_depth d) (normalized_multipv w)) := by
  refine ⟨rfl, ?_, ?_, ?_, rfl, ?_, ?_, ?_⟩
  · intro w hw
    rw [normalized_multipv, if_neg (by omega : ¬w < 1), if_pos (by omega : w > 10)]
  · intro w h1 h2
    rw [normalized_multipv, if_neg (by omega : ¬w < 1), if_neg (by omega : ¬w > 10)]
  · intro w
    by_cases h1 : w < 1
    · rw [normalized_multipv, if_pos h1]
      omega
    · by_cases h2 : w > 10
      · rw [normalized_multipv, if_neg h1, if_pos h2]
        omega
      · rw [normalized_multipv, if_neg h1, if_neg h2]
        omega
  · intro d hd
    simp [normalized_depth, hd]
  · intro F P U M R fen rd entry h
    simp [mk_engine_line, h]
  · intro F P U M R stream fen d w
    rfl

/-- Witness for the request-normalization theorem at concrete inputs. -/
theorem request_normalization_witness :
    normalized_multipv 17 = 10
  ∧ normalized_multipv 3 = 3
  ∧ normalized_depth 5 = 5
  ∧ (mk_engine_line trivRules "f" 18 (1, ⟨none, some 7, none, [], 1⟩)).depth = 18 :=
  ⟨request_normalization.2.1 17 (by decide),
   request_normalization.2.2.1 3 (by decide) (by decide),
   request_normalization.2.2.2.2.2.1 5 (by decide),
   request_normalization.2.2.2.2.2.2.1 Unit Unit Unit Unit trivRules "f" 18
     (1, ⟨none, some 7, none, [], 1⟩) (by decide)⟩

/-- C10: a record without a depth field compares as depth 0: it never beats a
stored record with an explicit depth of at least 1 (so such a candidate never
replaces a stored record, move sequences notwithstanding), and two depth-less
records tie, leaving only the non-empty-over-empty move-sequence tie-break. -/
theorem missing_depth_treated_as_zero :
    (∀ candidate current : ParsedInfoLine, ∀ d : Nat,
       candidate.depth = none → current.depth = some d → 1 ≤ d →
       better_info candidate current = false)
  ∧ (∀ (w : Nat) (m : List (Nat × ParsedInfoLine)) (candidate current : ParsedInfoLine)
       (d : Nat), m.lookup candidate.multipv = some current →
       candidate.depth = none → current.depth = some d → 1 ≤ d →
       process_info w m candidate = m)
  ∧ (∀ candidate current : ParsedInfoLine,
       candidate.depth = none → current.depth = none →
       (better_info candidate current = true ↔ (candidate.pv ≠ [] ∧ current.pv = []))) := by
  refine ⟨?_, ?_, ?_⟩
  · intro candidate current d hc hcur hd
    simp only [better_info, hc, hcur, Option.getD_none, Option.getD_some]
    have h1 : decide (d < 0) = false := by simp
    have h2 : decide ((0 : Nat) = d) = false := by simp; omega
    simp [h1, h2]
  · intro w m candidate current d hlook hc hcur hd
    have hb : better_info candidate current = false := by
      simp only [better_info, hc, hcur, Option.getD_none, Option.getD_some]
      have h1 : decide (d < 0) = false := by simp
      have h2 : decide ((0 : Nat) = d) = false := by simp; omega
      simp [h1, h2]
    by_cases hguard : candidate.multipv = 0 ∨ candidate.multipv > w
    · simp [process_info, hguard]
    · simp [process_info, hguard, hlook, hb]
  · intro candidate current hc hcur
    simp only [better_info, hc, hcur, Option.getD_none]
    constructor
    · intro h
      rcases Bool.or_eq_true_iff.mp h with h | h
      · simp at h
      · have h1 := Bool.and_eq_true_iff.mp h
        have h2 := Bool.and_eq_true_iff.mp h1.1
        refine ⟨?_, ?_⟩
        · have := h2.2
          simpa [List.isEmpty_iff] using this
        · simpa [List.isEmpty_iff] using h1.2
    · intro ⟨h1, h2⟩
      have hne : candidate.pv.isEmpty = false := by
        simpa [List.isEmpty_iff] using h1
      have he : current.pv.isEmpty = true := by
        simpa [List.isEmpty_iff] using h2
      simp [hne, he]

/-- Witness for the missing-depth theorem at concrete records. -/
theorem missing_depth_treated_as_zero_witness :
    better_info ⟨none, some 5, none, ["e2e4"], 1⟩ ⟨some 3, some 1, none, [], 1⟩ = false
  ∧ process_info 5 [(1, ⟨some 3, some 1, none, [], 1⟩)] ⟨none, some 5, none, ["e2e4"], 1⟩ =
      [(1, ⟨some 3, some 1, none, [], 1⟩)]
  ∧ (better_info ⟨none, some 5, none, ["e2e4"], 1⟩ ⟨none, some 1, none, [], 1⟩ = true ↔
      ((["e2e4"] : List String) ≠ [] ∧ ([] : List String) = [])) :=
  ⟨missing_depth_treated_as_zero.1 ⟨none, some 5, none, ["e2e4"], 1⟩
     ⟨some 3, some 1, none, [], 1⟩ 3 (by decide) (by decide) (by decide),
   missing_depth_treated_as_zero.2.1 5 [(1, ⟨some 3, some 1, none, [], 1⟩)]
     ⟨none, some 5, none, ["e2e4"], 1⟩ ⟨some 3, some 1, none, [], 1⟩ 3
     (by decide) (by decide) (by decide) (by decide),
   missing_depth_treated_as_zero.2.2 ⟨none, some 5, none, ["e2e4"], 1⟩
     ⟨none, some 1, none, [], 1⟩ (by decide) (by decide)⟩

/-- C2: for an in-range rank the aggregator stores the candidate exactly when
no record exists for that rank or `better_info` prefers the candidate, and
`better_info` on two explicit depths holds exactly for a strictly greater
depth or an equal depth with a non-empty candidate move sequence against an
empty stored one; concretely, depths 16 and 21 for the same rank retain the
depth-21 record in either arrival order, and at equal depth a non-empty move
sequence wins over an empty one in either arrival order. -/
theorem aggregator_update_policy :
    (∀ (w : Nat) (m : List (Nat × ParsedInfoLine)) (info : ParsedInfoLine),
       info.multipv ≠ 0 → info.multipv ≤ w →
       (process_info w m info).lookup info.multipv =
         some (match m.lookup info.multipv with
               | none => info
               | some current => if better_info info current then info else current))
  ∧ (∀ candidate current : ParsedInfoLine, ∀ dc ds : Nat,
       candidate.depth = some dc → current.depth = some ds →
       (better_info candidate current = true ↔
         (ds < dc ∨ (dc = ds ∧ candidate.pv ≠ [] ∧ current.pv = []))))
  ∧ process_info 1 (process_info 1 [] ⟨some 16, some 10, none, ["a2a3"], 1⟩)
      ⟨some 21, some 11, none, ["b2b3"], 1⟩ = [(1, ⟨some 21, some 11, none, ["b2b3"], 1⟩)]
  ∧ process_info 1 (process_info 1 [] ⟨some 21, some 11, none, ["b2b3"], 1⟩)
      ⟨some 16, some 10, none, ["a2a3"], 1⟩ = [(1, ⟨some 21, some 11, none, ["b2b3"], 1⟩)]
  ∧ process_info 1 (process_info 1 [] ⟨some 9, some 1, none, [], 1⟩)
      ⟨some 9, some 2, none, ["c2c3"], 1⟩ = [(1, ⟨some 9, some 2, none, ["c2c3"], 1⟩)]
  ∧ process_info 1 (process_info 1 [] ⟨some 9, some 2, none, ["c2c3"], 1⟩)
      ⟨some 9, some 1, none, [], 1⟩ = [(1, ⟨some 9, some 2, none, ["c2c3"], 1⟩)] := by
  refine ⟨?_, ?_, by decide, by decide, by decide, by decide⟩
  · intro w m info h0 hw
    have hguard : ¬(info.multipv = 0 ∨ info.multipv > w) := by omega
    simp only [process_info, hguard, if_false]
    cases hlook : m.lookup info.multipv with
    | none => simp [hlook, lookup_bt_insert_self]
    | some current =>
      cases hb : better_info info current with
      | true => simp [hlook, hb, lookup_bt_insert_self]
      | false => simp [hlook, hb]
  · intro candidate current dc ds hc hcur
    simp only [better_info, hc, hcur, Option.getD_some]
    constructor
    · intro h
      rcases Bool.or_eq_true_iff.mp h with h | h
      · exact Or.inl (by simpa using h)
      · have h1 := Bool.and_eq_true_iff.mp h
        have h2 := Bool.and_eq_true_iff.mp h1.1
        refine Or.inr ⟨by simpa using h2.1.symm, ?_, ?_⟩
        · simpa [List.isEmpty_iff] using h2.2
        · simpa [List.isEmpty_iff] using h1.2
    · intro h
      rcases h with h | ⟨heq, hne, he⟩
      · simp [h]
      · have hne' : candidate.pv.isEmpty = false := by
          simpa [List.isEmpty_iff] using hne
        have he' : current.pv.isEmpty = true := by
          simpa [List.isEmpty_iff] using he
        simp [heq, hne', he']

/-- Witness for the update-policy theorem at concrete inputs. -/
theorem aggregator_update_policy_witness :
    (process_info 3 [] ⟨some 4, some 1, none, ["d2d4"], 2⟩).lookup 2 =
      some ⟨some 4, some 1, none, ["d2d4"], 2⟩
  ∧ (better_info ⟨some 21, some 11, none, ["b2b3"], 1⟩ ⟨some 16, some 10, none, ["a2a3"], 1⟩ = true ↔
      (16 < 21 ∨ (21 = 16 ∧ (["b2b3"] : List String) ≠ [] ∧ (["a2a3"] : List String) = []))) :=
  ⟨by
    have h := aggregator_update_policy.1 3 [] ⟨some 4, some 1, none, ["d2d4"], 2⟩
      (by decide) (by decide)
    simpa using h,
   aggregator_update_policy.2.1 ⟨some 21, some 11, none, ["b2b3"], 1⟩
     ⟨some 16, some 10, none, ["a2a3"], 1⟩ 21 16 (by decide) (by decide)⟩

/-- C6: awaiting a token succeeds exactly when some line within the bound has
the expected token as its trimmed content; an end of stream reached with no
match (the stream being shorter than the bound) gives the closed-while-waiting
protocol error; reading the full bound without a match or end of stream gives
the token-not-received protocol error. -/
theorem await_token_behavior :
    ∀ (stream : List String) (token : String) (max_lines : Nat),
      ((∃ l ∈ stream.take max_lines, rustTrim l = token) ↔
        ∃ rest, wait_for_uci_token stream token max_lines = .ok rest)
    ∧ (stream.length < max_lines → (∀ l ∈ stream, rustTrim l ≠ token) →
        wait_for_uci_token stream token max_lines =
          .error (.Protocol ("engine closed output while waiting for '" ++ token ++ "'")))
    ∧ (max_lines ≤ stream.length → (∀ l ∈ stream.take max_lines, rustTrim l ≠ token) →
        wait_for_uci_token stream token max_lines =
          .error (.Protocol ("did not receive '" ++ token ++ "' from engine"))) := by
  intro stream token max_lines
  induction max_lines generalizing stream with
  | zero =>
    refine ⟨?_, ?_, ?_⟩
    · simp [wait_for_uci_token]
    · intro h
      omega
    · intro _ _
      cases stream <;> rfl
  | succ n ih =>
    cases stream with
    | nil =>
      refine ⟨?_, ?_, ?_⟩
      · simp [wait_for_uci_token]
      · intro _ _
        rfl
      · intro h
        simp at h
    | cons line rest =>
      by_cases hm : rustTrim line = token
      · refine ⟨?_, ?_, ?_⟩
        · constructor
          · intro _
            exact ⟨rest, by simp [wait_for_uci_token, hm]⟩
          · intro _
            exact ⟨line, by simp, hm⟩
        · intro hlen hall
          exact absurd hm (hall line (by simp))
        · intro hlen hall
          exact absurd hm (hall line (by simp))
      · have heq : wait_for_uci_token (line :: rest) token (n + 1) =
            wait_for_uci_token rest token n := by
          simp [wait_for_uci_token, hm]
        obtain ⟨ih1, ih2, ih3⟩ := ih rest
        refine ⟨?_, ?_, ?_⟩
        · rw [heq]
          constructor
          · intro hex
            obtain ⟨l, hl, he⟩ := hex
            have hl' : l ∈ rest.take n := by
              rcases (by simpa using hl : l = line ∨ l ∈ rest.take n) with h | h
              · exact absurd (h ▸ he) hm
              · exact h
            exact ih1.mp ⟨l, hl', he⟩
          · intro hok
            obtain ⟨l, hl, he⟩ := ih1.mpr hok
            exact ⟨l, by simp [hl], he⟩
        · intro hlen hall
          rw [heq]
          exact ih2 (by simpa using hlen) (fun l hl => hall l (by simp [hl]))
        · intro hlen hall
          rw [heq]
          exact ih3 (by simpa using hlen) (fun l hl => hall l (by simp [hl]))

/-- Witness for the await-token theorem at concrete streams. -/
theorem await_token_behavior_witness :
    wait_for_uci_token ["a", "b"] "tok" 5 =
      .error (.Protocol ("engine closed output while waiting for '" ++ "tok" ++ "'"))
  ∧ wait_for_uci_token ["a", "b", "tok"] "tok" 2 =
      .error (.Protocol ("did not receive '" ++ "tok" ++ "' from engine")) :=
  ⟨(await_token_behavior ["a", "b"] "tok" 5).2.1 (by decide) (by decide),
   (await_token_behavior ["a", "b", "tok"] "tok" 2).2.2 (by decide) (by decide)⟩

theorem parse_info_line_of_bestmove (s : String)
    (h : rustStartsWith s "bestmove" = true) : parse_info_line s = none := by
  have hfalse : rustStartsWith s "info " = false := by
    unfold rustStartsWith at h ⊢
    have hb : "bestmove".toList = ['b', 'e', 's', 't', 'm', 'o', 'v', 'e'] := rfl
    have hi : "info ".toList = ['i', 'n', 'f', 'o', ' '] := rfl
    rw [hb] at h
    rw [hi]
    cases hs : s.toList with
    | nil =>
      rw [hs] at h
      simp [List.isPrefixOf] at h
    | cons c cs =>
      rw [hs] at h
      have hc : c = 'b' := by
        simp [List.isPrefixOf] at h
        exact h.1.symm
      subst hc
      simp [List.isPrefixOf]
  simp [parse_info_line, hfalse]

theorem process_info_out_of_range (w : Nat) (bt : List (Nat × ParsedInfoLine))
    (info : ParsedInfoLine) (h : info.multipv = 0 ∨ info.multipv > w) :
    process_info w bt info = bt := by
  simp [process_info, h]

theorem collect_loop_step_info (w n : Nat) (line : String) (rest : List String)
    (bt : List (Nat × ParsedInfoLine)) (bm : Option String) (info : ParsedInfoLine)
    (h : parse_info_line (rustTrim line) = some info) :
    collect_loop w (n + 1) (line :: rest) bt bm =
      collect_loop w n rest (process_info w bt info) bm := by
  simp only [collect_loop, h]

theorem collect_loop_step_bestmove (w n : Nat) (line : String) (rest : List String)
    (bt : List (Nat × ParsedInfoLine)) (bm : Option String)
    (h1 : parse_info_line (rustTrim line) = none)
    (h2 : rustStartsWith (rustTrim line) "bestmove" = true) :
    collect_loop w (n + 1) (line :: rest) bt bm =
      .ok (bt,
        match (split_whitespace (rustTrim line)).get? 1 with
        | some token => if token ≠ "(none)" then some token else bm
        | none => bm) := by
  simp only [collect_loop, h1, h2, if_true]

theorem collect_loop_step_skip (w n : Nat) (line : String) (rest : List String)
    (bt : List (Nat × ParsedInfoLine)) (bm : Option String)
    (h1 : parse_info_line (rustTrim line) = none)
    (h2 : rustStartsWith (rustTrim line) "bestmove" = false) :
    collect_loop w (n + 1) (line :: rest) bt bm = collect_loop w n rest bt bm := by
  simp only [collect_loop, h1, h2]
  rfl

theorem collect_loop_skip (w : Nat) (post : List String)
    (bt : List (Nat × ParsedInfoLine)) (bm : Option String) :
    ∀ (lines : List String) (n : Nat),
      (∀ l ∈ lines, rustStartsWith (rustTrim l) "bestmove" = false ∧
        ∀ info, parse_info_line (rustTrim l) = some info → process_info w bt info = bt) →
      lines.length ≤ n →
      collect_loop w n (lines ++ post) bt bm =
        collect_loop w (n - lines.length) post bt bm := by
  intro lines
  induction lines with
  | nil =>
    intro n h hlen
    simp
  | cons l rest ih =>
    intro n h hlen
    cases n with
    | zero => simp at hlen
    | succ m =>
      have hl := h l (by simp)
      have hstep : collect_loop w (m + 1) ((l :: rest) ++ post) bt bm =
          collect_loop w m (rest ++ post) bt bm := by
        cases hp : parse_info_line (rustTrim l) with
        | some info =>
          rw [List.cons_append, collect_loop_step_info w m l (rest ++ post) bt bm info hp,
            hl.2 info hp]
        | none =>
          rw [List.cons_append, collect_loop_step_skip w m l (rest ++ post) bt bm hp hl.1]
      rw [hstep, ih m (fun x hx => h x (List.mem_cons_of_mem l hx)) (by simpa using hlen)]
      congr 1
      simp [Nat.succ_sub_succ]

/-- C5: if a line announcing the terminal best move is reached while every
earlier line yielded no stored record (it was neither a `bestmove` line nor an
info line with a rank inside the requested width), the collection fails with
the no-analysis-info protocol error. -/
theorem bestmove_without_data_is_error :
    ∀ {F P U M : Type} (R : Rules F P U M) (fen : String) (rd w : Nat)
      (pre post : List String) (bl : String),
      rustStartsWith (rustTrim bl) "bestmove" = true →
      pre.length < 50000 →
      (∀ l ∈ pre, rustStartsWith (rustTrim l) "bestmove" = false ∧
        ∀ info, parse_info_line (rustTrim l) = some info →
          info.multipv = 0 ∨ info.multipv > w) →
      collect_analysis_result R (pre ++ bl :: post) fen rd w =
        .error (.Protocol "engine returned no analysis info for this position") := by
  intro F P U M R fen rd w pre post bl hbl hlen hpre
  have hskip := collect_loop_skip w (bl :: post) [] none pre 50000
    (fun l hl => ⟨(hpre l hl).1,
      fun info hinfo => process_info_out_of_range w [] info ((hpre l hl).2 info hinfo)⟩)
    (by omega)
  obtain ⟨k, hk⟩ : ∃ k, 50000 - pre.length = k + 1 := ⟨50000 - pre.length - 1, by omega⟩
  have hbm := collect_loop_step_bestmove w k bl post [] none
    (parse_info_line_of_bestmove (rustTrim bl) hbl) hbl
  simp only [collect_analysis_result, hskip, hk, hbm]
  rfl

/-- Witness for the no-data-at-bestmove theorem on a concrete stream. -/
theorem bestmove_without_data_is_error_witness :
    collect_analysis_result trivRules ["junk", "info multipv 7 score cp 3", "bestmove e2e4"]
      "f" 18 1 =
      .error (.Protocol "engine returned no analysis info for this position") :=
  bestmove_without_data_is_error trivRules "f" 18 1
    ["junk", "info multipv 7 score cp 3"] [] "bestmove e2e4" (by decide) (by decide)
    (by decide)

/-- Invariant of the per-rank map: strictly increasing keys (hence unique and
ordered) that all lie within [1, w]. -/
def bt_inv (w : Nat) (m : List (Nat × ParsedInfoLine)) : Prop :=
  m.Pairwise (fun a b => a.1 < b.1) ∧ ∀ e ∈ m, 1 ≤ e.1 ∧ e.1 ≤ w

theorem mem_bt_insert {α : Type} (k : Nat) (v : α) :
    ∀ (m : List (Nat × α)) (x : Nat × α), x ∈ bt_insert k v m → x = (k, v) ∨ x ∈ m := by
  intro m
  induction m with
  | nil =>
    intro x hx
    simp [bt_insert] at hx
    exact Or.inl hx
  | cons hd t ih =>
    intro x hx
    obtain ⟨k₁, v₁⟩ := hd
    by_cases h1 : k < k₁
    · simp only [bt_insert, if_pos h1] at hx
      rcases List.mem_cons.mp hx with h | h
      · exact Or.inl h
      · exact Or.inr h
    · by_cases h2 : k = k₁
      · simp only [bt_insert, if_neg h1, if_pos h2] at hx
        rcases List.mem_cons.mp hx with h | h
        · exact Or.inl h
        · exact Or.inr (List.mem_cons_of_mem _ h)
      · simp only [bt_insert, if_neg h1, if_neg h2] at hx
        rcases List.mem_cons.mp hx with h | h
        · exact Or.inr (by simp [h])
        · rcases ih x h with h' | h'
          · exact Or.inl h'
          · exact Or.inr (List.mem_cons_of_mem _ h')

theorem bt_insert_sorted {α : Type} (k : Nat) (v : α) :
    ∀ m : List (Nat × α), m.Pairwise (fun a b => a.1 < b.1) →
      (bt_insert k v m).Pairwise (fun a b => a.1 < b.1) := by
  intro m
  induction m with
  | nil =>
    intro _
    simp [bt_insert]
  | cons hd t ih =>
    intro hp
    obtain ⟨k₁, v₁⟩ := hd
    rw [List.pairwise_cons] at hp
    by_cases h1 : k < k₁
    · simp only [bt_insert, if_pos h1]
      refine List.Pairwise.cons ?_ (List.Pairwise.cons hp.1 hp.2)
      intro x hx
      rcases List.mem_cons.mp hx with rfl | hx'
      · exact h1
      · exact lt_trans h1 (hp.1 x hx')
    · by_cases h2 : k = k₁
      · simp only [bt_insert, if_neg h1, if_pos h2]
        refine List.Pairwise.cons ?_ hp.2
        intro x hx
        rw [h2]
        exact hp.1 x hx
      · have h3 : k₁ < k := by omega
        simp only [bt_insert, if_neg h1, if_neg h2]
        refine List.Pairwise.cons ?_ (ih hp.2)
        intro x hx
        rcases mem_bt_insert k v t x hx with rfl | hx'
        · exact h3
        · exact hp.1 x hx'

theorem process_info_inv (w : Nat) (m : List (Nat × ParsedInfoLine))
    (info : ParsedInfoLine) (h : bt_inv w m) : bt_inv w (process_info w m info) := by
  by_cases hguard : info.multipv = 0 ∨ info.multipv > w
  · simpa [process_info, hguard] using h
  · have hrange : 1 ≤ info.multipv ∧ info.multipv ≤ w := by omega
    cases hs : (match m.lookup info.multipv with
        | some current => better_info info current
        | none => true : Bool) with
    | false =>
      simpa [process_info, hguard, hs] using h
    | true =>
      simp only [process_info, if_neg hguard, hs, if_true]
      refine ⟨bt_insert_sorted info.multipv info m h.1, ?_⟩
      intro e he
      rcases mem_bt_insert info.multipv info m e he with rfl | he'
      · exact hrange
      · exact h.2 e he'

theorem collect_loop_inv (w : Nat) :
    ∀ (n : Nat) (stream : List String) (bt : List (Nat × ParsedInfoLine))
      (bm : Option String) (bt₁ : List (Nat × ParsedInfoLine)) (bm₁ : Option String),
      collect_loop w n stream bt bm = .ok (bt₁, bm₁) → bt_inv w bt → bt_inv w bt₁ := by
  intro n
  induction n with
  | zero =>
    intro stream bt bm bt₁ bm₁ hok hinv
    cases stream <;> simp [collect_loop] at hok <;>
      exact hok.1 ▸ hinv
  | succ m ih =>
    intro stream bt bm bt₁ bm₁ hok hinv
    cases stream with
    | nil => simp [collect_loop] at hok
    | cons l rest =>
      cases hp : parse_info_line (rustTrim l) with
      | some info =>
        rw [collect_loop_step_info w m l rest bt bm info hp] at hok
        exact ih rest _ bm bt₁ bm₁ hok (process_info_inv w bt info hinv)
      | none =>
        cases hb : rustStartsWith (rustTrim l) "bestmove" with
        | true =>
          rw [collect_loop_step_bestmove w m l rest bt bm hp hb] at hok
          simp at hok
          exact hok.1 ▸ hinv
        | false =>
          rw [collect_loop_step_skip w m l rest bt bm hp hb] at hok
          exact ih rest bt bm bt₁ bm₁ hok hinv

theorem finalize_lines_of_inv {F P U M : Type} (R : Rules F P U M) (fen : String)
    (rd w : Nat) (bt : List (Nat × ParsedInfoLine)) (bm : Option String)
    (a : EngineAnalysis) (hok : finalize_analysis R fen rd bt bm = .ok a)
    (hinv : bt_inv w bt) :
    a.lines ≠ []
    ∧ a.lines.Pairwise (fun x y => x.multipv_rank < y.multipv_rank)
    ∧ ∀ l ∈ a.lines, 1 ≤ l.multipv_rank ∧ l.multipv_rank ≤ w := by
  by_cases he : bt.isEmpty
  · simp [finalize_analysis, he] at hok
  · have hbt : bt ≠ [] := by simpa [List.isEmpty_iff] using he
    have hmap : (bt.map (mk_engine_line R fen rd)).Pairwise
        (fun x y => x.multipv_rank < y.multipv_rank) := by
      rw [List.pairwise_map]
      exact hinv.1
    have hsort : (bt.map (mk_engine_line R fen rd)).insertionSort
        (fun x y => x.multipv_rank ≤ y.multipv_rank) = bt.map (mk_engine_line R fen rd) :=
      List.Sorted.insertionSort_eq (hmap.imp le_of_lt)
    have hlines : a.lines = bt.map (mk_engine_line R fen rd) := by
      simp only [finalize_analysis, he, Bool.false_eq_true, if_false, hsort] at hok
      cases hfind : ((bt.map (mk_engine_line R fen rd)).find?
          (fun l => l.multipv_rank == 1)).orElse
          (fun _ => (bt.map (mk_engine_line R fen rd)).head?) with
      | none =>
        rw [hfind] at hok
        simp at hok
      | some primary =>
        rw [hfind] at hok
        simp only [Except.ok.injEq] at hok
        rw [← hok]
    refine ⟨?_, ?_, ?_⟩
    · rw [hlines]
      simpa using hbt
    · rw [hlines]
      exact hmap
    · rw [hlines]
      intro l hl
      obtain ⟨e, hemem, rfl⟩ := List.mem_map.mp hl
      exact hinv.2 e hemem

/-- C4: every successful analysis has at least one ranked line, the ranks are
strictly increasing (hence unique and sorted ascending), and every rank lies
between 1 and the clamped requested width; records with rank 0 or beyond the
width never contribute a line. -/
theorem analysis_result_invariants :
    ∀ {F P U M : Type} (R : Rules F P U M) (stream : List String) (fen : String)
      (d w : Nat) (a : EngineAnalysis),
      analyze_with_engine_io R stream fen d w = .ok a →
      a.lines ≠ []
      ∧ a.lines.Pairwise (fun x y => x.multipv_rank < y.multipv_rank)
      ∧ ∀ l ∈ a.lines, 1 ≤ l.multipv_rank ∧ l.multipv_rank ≤ normalized_multipv w := by
  intro F P U M R stream fen d w a hok
  simp only [analyze_with_engine_io] at hok
  cases hw : wait_for_uci_token stream "readyok" 20000 with
  | error e =>
    rw [hw] at hok
    simp at hok
  | ok rest =>
    rw [hw] at hok
    simp only [collect_analysis_result] at hok
    cases hc : collect_loop (normalized_multipv w) 50000 rest [] none with
    | error e =>
      rw [hc] at hok
      simp at hok
    | ok pr =>
      obtain ⟨bt, bm⟩ := pr
      rw [hc] at hok
      have hinv : bt_inv (normalized_multipv w) bt :=
        collect_loop_inv (normalized_multipv w) 50000 rest [] none bt bm hc
          ⟨List.Pairwise.nil, by simp⟩
      exact finalize_lines_of_inv R fen (normalized_depth d) (normalized_multipv w)
        bt bm a hok hinv

/-- Witness for the result-invariant theorem on a concrete stream. -/
theorem analysis_result_invariants_witness :
    analyze_with_engine_io trivRules
        ["readyok", "info depth 2 multipv 1 score cp 7 pv a2a3", "bestmove a2a3"] "f" 0 0 =
      .ok
        { depth := 2, score_cp := some 7, score_mate := none, bestmove := some "a2a3",
          pv := ["a2a3"],
          lines := [{ multipv_rank := 1, depth := 2, score_cp := some 7, score_mate := none,
                      pv := ["a2a3"], san_pv := [] }] }
  ∧ ({ depth := 2, score_cp := some 7, score_mate := none, bestmove := some "a2a3",
       pv := ["a2a3"],
       lines := [{ multipv_rank := 1, depth := 2, score_cp := some 7, score_mate := none,
                   pv := ["a2a3"], san_pv := [] }] } : EngineAnalysis).lines ≠ [] :=
  ⟨by decide,
   (analysis_result_invariants trivRules
      ["readyok", "info depth 2 multipv 1 score cp 7 pv a2a3", "bestmove a2a3"] "f" 0 0 _
      (by decide)).1⟩

/-- C3: on successful finalization the result's scalar fields come from a
primary line that is in the line set and either has rank 1 or — when no line
has rank 1 — is the first line, whose rank is the lowest populated rank; and
the reported best move is the first translated move of the primary line, else
the retained terminal best-move token, else the primary line's first
protocol-native move token, else absent. -/
theorem primary_line_selection :
    ∀ {F P U M : Type} (R : Rules F P U M) (fen : String) (rd : Nat)
      (bt : List (Nat × ParsedInfoLine)) (bm : Option String) (a : EngineAnalysis),
      finalize_analysis R fen rd bt bm = .ok a →
      ∃ primary, primary ∈ a.lines
        ∧ (primary.multipv_rank = 1 ∨
            ((∀ l ∈ a.lines, l.multipv_rank ≠ 1)
              ∧ a.lines.head? = some primary
              ∧ ∀ l ∈ a.lines, primary.multipv_rank ≤ l.multipv_rank))
        ∧ a.depth = primary.depth
        ∧ a.score_cp = primary.score_cp
        ∧ a.score_mate = primary.score_mate
        ∧ a.pv = primary.pv
        ∧ a.bestmove =
            ((primary.san_pv.head?).orElse (fun _ => bm)).orElse (fun _ => primary.pv.head?) := by
  intro F P U M R fen rd bt bm a hok
  by_cases he : bt.isEmpty
  · simp [finalize_analysis, he] at hok
  · haveI instTot : IsTotal EngineLine (fun x y => x.multipv_rank ≤ y.multipv_rank) :=
      ⟨fun x y => Nat.le_total _ _⟩
    haveI instTrans : IsTrans EngineLine (fun x y => x.multipv_rank ≤ y.multipv_rank) :=
      ⟨fun x y z h1 h2 => le_trans h1 h2⟩
    have hsorted : ((bt.map (mk_engine_line R fen rd)).insertionSort
        (fun x y => x.multipv_rank ≤ y.multipv_rank)).Sorted
          (fun x y => x.multipv_rank ≤ y.multipv_rank) :=
      List.sorted_insertionSort _ _
    simp only [finalize_analysis, he, Bool.false_eq_true, if_false] at hok
    cases hfind : (bt.map (mk_engine_line R fen rd)).insertionSort
        (fun x y => x.multipv_rank ≤ y.multipv_rank) |>.find?
          (fun l => l.multipv_rank == 1) with
    | some p =>
      rw [hfind] at hok
      simp only [Option.orElse, Except.ok.injEq] at hok
      subst hok
      refine ⟨p, ?_, ?_, rfl, rfl, rfl, rfl, rfl⟩
      · exact List.mem_of_find?_eq_some hfind
      · exact Or.inl (by simpa using List.find?_some hfind)
    | none =>
      rw [hfind] at hok
      simp only [Option.orElse] at hok
      cases hhead : (bt.map (mk_engine_line R fen rd)).insertionSort
          (fun x y => x.multipv_rank ≤ y.multipv_rank) |>.head? with
      | none =>
        rw [hhead] at hok
        simp at hok
      | some p =>
        rw [hhead] at hok
        simp only [Except.ok.injEq] at hok
        subst hok
        refine ⟨p, ?_, ?_, rfl, rfl, rfl, rfl, rfl⟩
        · exact List.mem_of_mem_head? hhead
        · refine Or.inr ⟨?_, hhead, ?_⟩
          · intro l hl
            have := (List.find?_eq_none.mp hfind) l hl
            simpa using this
          · intro l hl
            obtain ⟨tail, htail⟩ : ∃ tail,
                (bt.map (mk_engine_line R fen rd)).insertionSort
                  (fun x y => x.multipv_rank ≤ y.multipv_rank) = p :: tail := by
              cases hcase : (bt.map (mk_engine_line R fen rd)).insertionSort
                  (fun x y => x.multipv_rank ≤ y.multipv_rank) with
              | nil => rw [hcase] at hhead; simp at hhead
              | cons x xs =>
                rw [hcase] at hhead
                simp at hhead
                exact ⟨xs, by rw [hhead]⟩
            rw [htail] at hl hsorted
            rcases List.mem_cons.mp hl with rfl | hl'
            · exact le_refl _
            · exact List.rel_of_pairwise_cons hsorted hl'

/-- Witness for the primary-line selection theorem at a concrete map. -/
theorem primary_line_selection_witness :
    ∃ primary,
      primary ∈ ({ depth := 3, score_cp := some 5, score_mate := none, bestmove := some "t",
                   pv := ["a7a6"],
                   lines := [{ multipv_rank := 2, depth := 3, score_cp := some 5,
                               score_mate := none, pv := ["a7a6"],
                               san_pv := [] }] } : EngineAnalysis).lines
      ∧ (primary.multipv_rank = 1 ∨
          ((∀ l ∈ ({ depth := 3, score_cp := some 5, score_mate := none, bestmove := some "t",
                     pv := ["a7a6"],
                     lines := [{ multipv_rank := 2, depth := 3, score_cp := some 5,
                                 score_mate := none, pv := ["a7a6"],
                                 san_pv := [] }] } : EngineAnalysis).lines,
              l.multipv_rank ≠ 1)
            ∧ ({ depth := 3, score_cp := some 5, score_mate := none, bestmove := some "t",
                 pv := ["a7a6"],
                 lines := [{ multipv_rank := 2, depth := 3, score_cp := some 5,
                             score_mate := none, pv := ["a7a6"],
                             san_pv := [] }] } : EngineAnalysis).lines.head? = some primary
            ∧ ∀ l ∈ ({ depth := 3, score_cp := some 5, score_mate := none, bestmove := some "t",
                       pv := ["a7a6"],
                       lines := [{ multipv_rank := 2, depth := 3, score_cp := some 5,
                                   score_mate := none, pv := ["a7a6"],
                                   san_pv := [] }] } : EngineAnalysis).lines,
                primary.multipv_rank ≤ l.multipv_rank))
      ∧ ({ depth := 3, score_cp := some 5, score_mate := none, bestmove := some "t",
           pv := ["a7a6"],
           lines := [{ multipv_rank := 2, depth := 3, score_cp := some 5, score_mate := none,
                       pv := ["a7a6"], san_pv := [] }] } : EngineAnalysis).depth = primary.depth
      ∧ ({ depth := 3, score_cp := some 5, score_mate := none, bestmove := some "t",
           pv := ["a7a6"],
           lines := [{ multipv_rank := 2, depth := 3, score_cp := some 5, score_mate := none,
                       pv := ["a7a6"], san_pv := [] }] } : EngineAnalysis).score_cp =
          primary.score_cp
      ∧ ({ depth := 3, score_cp := some 5, score_mate := none, bestmove := some "t",
           pv := ["a7a6"],
           lines := [{ multipv_rank := 2, depth := 3, score_cp := some 5, score_mate := none,
                       pv := ["a7a6"], san_pv := [] }] } : EngineAnalysis).score_mate =
          primary.score_mate
      ∧ ({ depth := 3, score_cp := some 5, score_mate := none, bestmove := some "t",
           pv := ["a7a6"],
           lines := [{ multipv_rank := 2, depth := 3, score_cp := some 5, score_mate := none,
                       pv := ["a7a6"], san_pv := [] }] } : EngineAnalysis).pv = primary.pv
      ∧ ({ depth := 3, score_cp := some 5, score_mate := none, bestmove := some "t",
           pv := ["a7a6"],
           lines := [{ multipv_rank := 2, depth := 3, score_cp := some 5, score_mate := none,
                       pv := ["a7a6"], san_pv := [] }] } : EngineAnalysis).bestmove =
          ((primary.san_pv.head?).orElse (fun _ => some "t")).orElse
            (fun _ => primary.pv.head?) :=
  primary_line_selection trivRules "f" 7 [(2, ⟨some 3, some 5, none, ["a7a6"], 2⟩)]
    (some "t") _ (by decide)

theorem collect_loop_replicate_junk (w : Nat) (bt : List (Nat × ParsedInfoLine))
    (bm : Option String) :
    ∀ n, collect_loop w n (List.replicate n "x") bt bm = .ok (bt, bm) := by
  intro n
  induction n with
  | zero => simp [collect_loop]
  | succ m ih =>
    rw [List.replicate_succ,
      collect_loop_step_skip w m "x" (List.replicate m "x") bt bm (by decide) (by decide)]
    exact ih

/-- Stream that exhausts the 50,000-line read bound with no `bestmove` line:
one info line followed by 49,999 noise lines. -/
def cxStream : List String :=
  "info depth 1 multipv 1 pv e2e4" :: List.replicate 49999 "x"

/-- Counterexample to C1 as stated: this 50,000-line stream contains no line
starting with `bestmove` within the bound, yet `collect_analysis_result`
returns a successful result built from the stored info record, not a
protocol error. -/
theorem bound_without_bestmove_counterexample :
    (∀ l ∈ cxStream.take 50000, rustStartsWith (rustTrim l) "bestmove" = false)
  ∧ cxStream.length = 50000
  ∧ collect_analysis_result trivRules cxStream "f" 18 1 =
      .ok { depth := 1, score_cp := none, score_mate := none, bestmove := some "e2e4",
            pv := ["e2e4"],
            lines := [{ multipv_rank := 1, depth := 1, score_cp := none, score_mate := none,
                        pv := ["e2e4"], san_pv := [] }] } := by
  have hlen : cxStream.length = 50000 := by
    show ("info depth 1 multipv 1 pv e2e4" :: List.replicate 49999 "x").length = 50000
    rw [List.length_cons, List.length_replicate]
  refine ⟨?_, hlen, ?_⟩
  · intro l hl
    rw [List.take_of_length_le (le_of_eq hlen)] at hl
    rcases List.mem_cons.mp hl with rfl | h
    · decide
    · rw [List.eq_of_mem_replicate h]
      decide
  · have hinfo : parse_info_line (rustTrim "info depth 1 multipv 1 pv e2e4") =
        some ⟨some 1, none, none, ["e2e4"], 1⟩ := by decide
    have hproc : process_info 1 [] ⟨some 1, none, none, ["e2e4"], 1⟩ =
        [(1, ⟨some 1, none, none, ["e2e4"], 1⟩)] := by decide
    have hloop : collect_loop 1 50000 cxStream [] none =
        .ok ([(1, ⟨some 1, none, none, ["e2e4"], 1⟩)], none) := by
      show collect_loop 1 (49999 + 1)
        ("info depth 1 multipv 1 pv e2e4" :: List.replicate 49999 "x") [] none = _
      rw [collect_loop_step_info 1 49999 "info depth 1 multipv 1 pv e2e4"
        (List.replicate 49999 "x") [] none ⟨some 1, none, none, ["e2e4"], 1⟩ hinfo, hproc]
      exact collect_loop_replicate_junk 1 _ none 49999
    simp only [collect_analysis_result, hloop]
    decide

/-- C1 amended: exhausting the bound (or the stream) without a `bestmove`
line yields a protocol error only when, in addition, no info line within the
bound produced a stored record; the error is then the closed-stream or
no-analysis-info protocol error. -/
theorem bound_without_data_is_error :
    ∀ {F P U M : Type} (R : Rules F P U M) (stream : List String) (fen : String)
      (rd w : Nat),
      (∀ l ∈ stream.take 50000,
        rustStartsWith (rustTrim l) "bestmove" = false ∧
        ∀ info, parse_info_line (rustTrim l) = some info →
          info.multipv = 0 ∨ info.multipv > w) →
      ∃ msg, collect_analysis_result R stream fen rd w = .error (.Protocol msg) := by
  intro F P U M R stream fen rd w h
  have hsplit : stream.take 50000 ++ stream.drop 50000 = stream :=
    List.take_append_drop _ _
  have hskip := collect_loop_skip w (stream.drop 50000) [] none (stream.take 50000) 50000
    (fun l hl => ⟨(h l hl).1,
      fun info hi => process_info_out_of_range w [] info ((h l hl).2 info hi)⟩)
    (by simp)
  rw [hsplit] at hskip
  by_cases hlen : stream.length ≤ 50000
  · have hdrop : stream.drop 50000 = [] := by
      simp [List.drop_eq_nil_iff, hlen]
    cases hfuel : 50000 - (stream.take 50000).length with
    | zero =>
      refine ⟨"engine returned no analysis info for this position", ?_⟩
      simp only [collect_analysis_result]
      rw [hskip, hfuel, hdrop]
      simp [collect_loop, finalize_analysis]
    | succ k =>
      refine ⟨"engine closed output before sending bestmove", ?_⟩
      simp only [collect_analysis_result]
      rw [hskip, hfuel, hdrop]
      simp [collect_loop]
  · have htake : (stream.take 50000).length = 50000 := by
      simp
      omega
    refine ⟨"engine returned no analysis info for this position", ?_⟩
    simp only [collect_analysis_result]
    rw [hskip, htake]
    simp [collect_loop, finalize_analysis]

/-- Witness for the amended bound theorem on a concrete stream. -/
theorem bound_without_data_is_error_witness :
    ∃ msg, collect_analysis_result trivRules ["junk"] "f" 18 1 = .error (.Protocol msg) :=
  bound_without_data_is_error trivRules ["junk"] "f" 18 1 (by decide)

theorem pv_uci_to_san_go_none {F P U M : Type} (R : Rules F P U M) (position : P)
    (uci : String) (rest : List String) (h : resolve_token R position uci = none) :
    pv_uci_to_san_go R position (uci :: rest) = [] := by
  cases hu : R.uci_from_ascii uci with
  | none => simp [pv_uci_to_san_go, hu]
  | some parsed =>
    have hmv : R.to_move parsed position = none := by
      simpa [resolve_token, hu] using h
    simp [pv_uci_to_san_go, hu, hmv]

theorem pv_uci_to_san_go_some {F P U M : Type} (R : Rules F P U M) (position : P)
    (uci : String) (rest : List String) (mv : M)
    (h : resolve_token R position uci = some mv) :
    pv_uci_to_san_go R position (uci :: rest) =
      R.san_from_move position mv ::
        pv_uci_to_san_go R (R.play_unchecked position mv) rest := by
  cases hu : R.uci_from_ascii uci with
  | none => simp [resolve_token, hu] at h
  | some parsed =>
    have hmv : R.to_move parsed position = some mv := by
      simpa [resolve_token, hu] using h
    simp [pv_uci_to_san_go, hu, hmv]

theorem go_eq_display_of_legal_run {F P U M : Type} (R : Rules F P U M) :
    ∀ (pv : List String) (position : P),
      pv_uci_to_san_go R position pv = display_seq R position (legal_run R position pv) := by
  intro pv
  induction pv with
  | nil =>
    intro position
    simp [pv_uci_to_san_go, legal_run, display_seq]
  | cons uci rest ih =>
    intro position
    cases hres : resolve_token R position uci with
    | none =>
      rw [pv_uci_to_san_go_none R position uci rest hres]
      simp [legal_run, hres, display_seq]
    | some mv =>
      rw [pv_uci_to_san_go_some R position uci rest mv hres]
      simp only [legal_run, hres, display_seq]
      rw [ih]

theorem legal_run_is_take {F P U M : Type} (R : Rules F P U M) :
    ∀ (pv : List String) (position : P),
      ∃ tail, pv = legal_run R position pv ++ tail := by
  intro pv
  induction pv with
  | nil =>
    intro position
    exact ⟨[], by simp [legal_run]⟩
  | cons uci rest ih =>
    intro position
    cases hres : resolve_token R position uci with
    | none => exact ⟨uci :: rest, by simp [legal_run, hres]⟩
    | some mv =>
      obtain ⟨tail, htail⟩ := ih (R.play_unchecked position mv)
      exact ⟨tail, by simp only [legal_run, hres, List.cons_append]; rw [← htail]⟩

theorem legal_run_replays {F P U M : Type} (R : Rules F P U M) :
    ∀ (pv : List String) (position : P),
      (replay_all R position (legal_run R position pv)).isSome = true := by
  intro pv
  induction pv with
  | nil =>
    intro position
    simp [legal_run, replay_all]
  | cons uci rest ih =>
    intro position
    cases hres : resolve_token R position uci with
    | none => simp [legal_run, hres, replay_all]
    | some mv =>
      simp only [legal_run, hres, replay_all]
      exact ih (R.play_unchecked position mv)

theorem legal_run_maximal {F P U M : Type} (R : Rules F P U M) :
    ∀ (pv : List String) (position : P) (t : String) (tail₁ : List String) (position₁ : P),
      pv = legal_run R position pv ++ t :: tail₁ →
      replay_all R position (legal_run R position pv) = some position₁ →
      resolve_token R position₁ t = none := by
  intro pv
  induction pv with
  | nil =>
    intro position t tail₁ position₁ heq hrep
    simp [legal_run] at heq
  | cons uci rest ih =>
    intro position t tail₁ position₁ heq hrep
    cases hres : resolve_token R position uci with
    | none =>
      rw [legal_run] at heq hrep
      simp only [hres] at heq hrep
      simp only [List.nil_append, List.cons.injEq] at heq
      simp only [replay_all, Option.some.injEq] at hrep
      rw [← heq.1, ← hrep]
      exact hres
    | some mv =>
      rw [legal_run] at heq hrep
      simp only [hres] at heq hrep
      simp only [List.cons_append, List.cons.injEq] at heq
      simp only [replay_all, hres] at hrep
      exact ih (R.play_unchecked position mv) t tail₁ position₁ heq.2 hrep

/-- C7: translation equals the spec-modelled map of display notations over the
longest prefix of tokens that parse and are legal when replayed in order (so
the first failing token stops translation, keeping what was already
translated); an unparseable starting position gives the empty sequence; the
legal run is an actual prefix of the token list, replays fully, and is
maximal: the token that follows it (when one exists) does not resolve.
Translation is a total function — no failure of it can fail the analysis. -/
theorem pv_translation_longest_legal_run :
    ∀ {F P U M : Type} (R : Rules F P U M) (fen : String) (pv : List String),
      pv_uci_to_san R fen pv = spec_translate R fen pv
    ∧ ((R.fen_from_str fen).bind R.into_position = none → pv_uci_to_san R fen pv = [])
    ∧ (∀ position, (R.fen_from_str fen).bind R.into_position = some position →
        (∃ tail, pv = legal_run R position pv ++ tail)
        ∧ (replay_all R position (legal_run R position pv)).isSome = true
        ∧ (∀ (t : String) (tail₁ : List String) (position₁ : P),
            pv = legal_run R position pv ++ t :: tail₁ →
            replay_all R position (legal_run R position pv) = some position₁ →
            resolve_token R position₁ t = none)) := by
  intro F P U M R fen pv
  refine ⟨?_, ?_, ?_⟩
  · cases hf : R.fen_from_str fen with
    | none => simp [pv_uci_to_san, spec_translate, hf]
    | some f =>
      cases hp : R.into_position f with
      | none => simp [pv_uci_to_san, spec_translate, hf, hp]
      | some position =>
        simp only [pv_uci_to_san, spec_translate, hf, Option.some_bind, hp]
        exact go_eq_display_of_legal_run R pv position
  · intro hnone
    cases hf : R.fen_from_str fen with
    | none => simp [pv_uci_to_san, hf]
    | some f =>
      cases hp : R.into_position f with
      | none => simp [pv_uci_to_san, hf, hp]
      | some position =>
        rw [hf] at hnone
        simp [hp] at hnone
  · intro position hpos
    refine ⟨legal_run_is_take R pv position, legal_run_replays R pv position,
      legal_run_maximal R pv position⟩

/-- Witness for the translation theorem on the toy rules: the token list
["e2e4", "illegal", "a7a6"] has legal run ["e2e4"], and the follower
"illegal" does not resolve in the reached position. -/
theorem pv_translation_longest_legal_run_witness :
    pv_uci_to_san toyRules "startpos" ["e2e4", "illegal", "a7a6"] =
      spec_translate toyRules "startpos" ["e2e4", "illegal", "a7a6"]
  ∧ resolve_token toyRules 1 "illegal" = none :=
  ⟨(pv_translation_longest_legal_run toyRules "startpos" ["e2e4", "illegal", "a7a6"]).1,
   ((pv_translation_longest_legal_run toyRules "startpos"
       ["e2e4", "illegal", "a7a6"]).2.2 0 (by decide)).2.2 "illegal" ["a7a6"] 1
     (by decide) (by decide)⟩

end ChessPrep
